import Mathlib

/-!
A verification development for the statistical classification pipeline in
`src/demo-sources/research/pft_algae.py` of the `polarisation` repository:
the polarization-feature-template (PFT) microalgae classifier built from
k-means super-pixels (`train_kmeans_model`), class-proportion template
selection (`calculate_pft`) and region-level decisioning with contour
extraction (`predict_and_visualize`).

Modelling conventions.

* Python floats are modelled exactly as `ℚ`.  The only float literals that
  occur in comparisons are `0.85` and `0.3`; for the inputs considered here
  the double-precision computations agree with exact rational arithmetic
  (`int(K * 0.85)` equals `K * 85 / 100` in truncated natural division for
  every cluster count of interest, and coverage fractions are ratios of
  pixel counts, which are never within the rounding error of `0.3`).

* Euclidean-norm comparisons against the 3-sigma radius are embedded by
  squaring both (nonnegative) sides: the code compares
  `np.linalg.norm(x - mean[c])` with `triple_std[c] = sqrt(3)*sqrt(sum(std[c]**2))`,
  and `‖x - μ‖ ⋈ t  ↔  ‖x - μ‖² ⋈ t²` for `⋈ ∈ {<, ≤, =, >, ≥}` since both
  sides are nonnegative and squaring is strictly monotone on `[0, ∞)`.
  So `distSq` embeds the squared norm and `tripleStdSq` embeds
  `triple_std[c]² = 3 * Σᵢ std[c][i]²`.

* A Python `ZeroDivisionError` is modelled by `Option`: a function that can
  raise returns `none` in exactly the states in which the Python code raises.

* numpy boolean images of shape `H × W` are total functions `ℤ × ℤ → Bool`
  that are `false` outside the grid `[0,H) × [0,W)`; array reads with
  scipy's `border_value=0` convention are embedded by `clip`, which returns
  `false` off the grid.

* `skimage.measure.label` / `regionprops` (default 8-connectivity for a 2-D
  image) and `skimage.morphology.remove_small_objects` /
  `remove_small_holes` (default `connectivity=1`, i.e. 4-connectivity) use
  connected components.  Components are embedded by a bounded fixed-point
  iteration (`compIter`) whose fuel `H*W` dominates the number of grid
  cells, hence suffices to reach the closure: each round either adds a cell
  or has already stabilised.  `remove_small_objects ar m` keeps exactly the
  pixels whose component has size `≥ m` (scikit-image removes components
  with `component_sizes < min_size`), and `remove_small_holes ar t` is
  `~remove_small_objects(~ar, t)` exactly as in scikit-image's
  implementation, with the complement taken inside the image grid.

* `scipy.ndimage.binary_erosion` with `structure=np.ones((3,3))` and the
  default `border_value=0` is `erodeS` with radius 1: a pixel survives iff
  all nine neighbours are inside the grid and set.  The merge structure of
  `predict_and_visualize` is `generate_binary_structure(2, 2)` (a 3×3 block
  of `True`) padded with `pad_width = merge_structure_size // 2 = 2` and
  `constant_values=1`, i.e. a 7×7 block of `True`: radius 3.
  `binary_closing` is dilation followed by erosion with that structure,
  both with `border_value=0`.
-/

set_option maxRecDepth 8192

namespace PFT

/-! ### Template construction (`calculate_pft`, lines 177–257)

`calculate_pft` receives the per-cluster counters: `num_A` is built from
`Counter(minikm.labels_)` — the raw k-means fit labels of *all* training
pixels, with no outlier pass — and `num_B` from the outlier-filtered
predictions on the class-B files.  Both are dictionaries defaulting to `0`
on `range(clustern)`, embedded as total functions `ℕ → ℕ`. -/

/-- Line 243, `prop_rst_num[i] = num_A[i] / (num_A[i] + num_B[i])`: `none`
models the `ZeroDivisionError` raised when cluster `i` has no members. -/
def clusterProp (numA numB : ℕ → ℕ) (i : ℕ) : Option ℚ :=
  if numA i + numB i = 0 then none
  else some ((numA i : ℚ) / ((numA i : ℚ) + (numB i : ℚ)))

/-- The proportion loop of lines 242–246 over a list of cluster ids: it
produces the `(id, proportion)` pairs in ascending id order (the insertion
order of the `prop_rst_num` dict) and aborts at the first zero-membership
cluster. -/
def propsLoop (numA numB : ℕ → ℕ) : List ℕ → Option (List (ℕ × ℚ))
  | [] => some []
  | i :: rest =>
    match clusterProp numA numB i, propsLoop numA numB rest with
    | some q, some tl => some ((i, q) :: tl)
    | _, _ => none

/-- The ranking order realised by line 252,
`sorted(prop_rst_num.items(), key=lambda x: x[1], reverse=True)`:
descending by proportion; Python's sort is stable and the dict enumerates
ids in ascending order, so ties keep ascending cluster id.  On pairs with
pairwise-distinct ids this relation admits exactly one sorted arrangement,
which is therefore the one Python's stable sort produces. -/
def pftOrder (x y : ℕ × ℚ) : Prop :=
  y.2 < x.2 ∨ (x.2 = y.2 ∧ x.1 ≤ y.1)

instance : DecidableRel pftOrder := fun x y => by
  unfold pftOrder; infer_instance

instance : IsTotal (ℕ × ℚ) pftOrder where
  total x y := by
    unfold pftOrder
    rcases lt_trichotomy x.2 y.2 with h | h | h
    · exact Or.inr (Or.inl h)
    · rcases Nat.le_total x.1 y.1 with h' | h'
      · exact Or.inl (Or.inr ⟨h, h'⟩)
      · exact Or.inr (Or.inr ⟨h.symm, h'⟩)
    · exact Or.inl (Or.inl h)

instance : IsTrans (ℕ × ℚ) pftOrder where
  trans a b c hab hbc := by
    unfold pftOrder at *
    rcases hab with h1 | ⟨h1, h1'⟩ <;> rcases hbc with h2 | ⟨h2, h2'⟩
    · exact Or.inl (lt_trans h2 h1)
    · exact Or.inl (h2 ▸ h1)
    · exact Or.inl (h1 ▸ h2)
    · exact Or.inr ⟨h1.trans h2, le_trans h1' h2'⟩

/-- The values returned by `calculate_pft` (line 257), plus the sorted
ranking of line 252 for stating order properties. -/
structure PFTResult where
  ranking : List (ℕ × ℚ)
  pft : List ℕ
  props : List (ℕ × ℚ)
  contrast : ℚ

/-- Lines 229–257 of `calculate_pft`, given the per-cluster counters.
`int(clustern * 0.85)` of line 251 is the truncated product
`clustern * 85 / 100` (natural division).  The `total_AB = 0` guard models
the `ZeroDivisionError` of line 248 when `clustern = 0`; when the
proportion loop succeeds with `clustern > 0` that case cannot occur. -/
def calculate_pft (numA numB : ℕ → ℕ) (clustern : ℕ) : Option PFTResult :=
  match propsLoop numA numB (List.range clustern) with
  | none => none
  | some props =>
    let total_A := ((List.range clustern).map numA).sum
    let total_AB := ((List.range clustern).map (fun i => numA i + numB i)).sum
    if total_AB = 0 then none
    else
      let sorted_items := List.insertionSort pftOrder props
      let top_percent := clustern * 85 / 100
      some ⟨sorted_items, (sorted_items.take top_percent).map Prod.fst, props,
            (total_A : ℚ) / (total_AB : ℚ)⟩

/-- Counter functions for the concrete template-construction instances:
one Target member in cluster 0 and none elsewhere. -/
def cOneAtZero : ℕ → ℕ := fun i => if i = 0 then 1 else 0

/-- Counter function assigning every cluster one member. -/
def cAllOne : ℕ → ℕ := fun _ => 1

/-- Counter function assigning every cluster zero members. -/
def cAllZero : ℕ → ℕ := fun _ => 0

/-! ### Cluster statistics and the outlier tests

`train_kmeans_model` (lines 161–174) computes per-cluster means and
per-feature standard deviations of the members and the 3-sigma radius
`triple_std = np.sqrt(3) * np.sqrt(np.sum(groups_std**2, axis=1))`.
The cluster assignment `minikm.predict` is the library's nearest-centroid
map; it enters the claims only as an opaque assignment function. -/

/-- Squared Euclidean distance of two feature vectors (`np.linalg.norm(x - μ)²`,
`sqrt(sum((x - μ)**2))²`). -/
def distSq (v w : List ℚ) : ℚ :=
  ((v.zip w).map (fun q => (q.1 - q.2) ^ 2)).sum

/-- `triple_std[k]²  =  3 * Σᵢ groups_std[k][i]²` (line 172 squared). -/
def tripleStdSq (std : List ℚ) : ℚ :=
  3 * ((std.map (fun x => x ^ 2)).sum)

/-- The squared 3-sigma radii of all clusters from the per-cluster
standard-deviation vectors. -/
def tripleStdSqOf (groups_std : List (List ℚ)) : List ℚ :=
  groups_std.map tripleStdSq

/-- Outlier pass of `calculate_pft`, lines 216–220: a class-B vector keeps
its predicted cluster unless its distance to that cluster's mean *strictly*
exceeds the 3-sigma radius (`if distance > triple_std[cluster_label]`), in
which case its label becomes `-1`.  Comparison taken on squares. -/
def pft_label (groups_mean : List (List ℚ)) (thrSq : List ℚ)
    (assign : List ℚ → ℕ) (v : List ℚ) : ℤ :=
  let c := assign v
  if thrSq.getD c 0 < distSq v (groups_mean.getD c []) then -1 else (c : ℤ)

/-- Outlier pass of `predict_and_visualize`, lines 294–299: the loop over
clusters `a` rewrites exactly the pixels with fit label `a`, setting `-1`
where `distance >= triple_std[a]` (non-strict).  Its per-pixel net effect
is this function.  Comparison taken on squares. -/
def predict_label (groups_mean : List (List ℚ)) (thrSq : List ℚ)
    (assign : List ℚ → ℕ) (v : List ℚ) : ℤ :=
  let c := assign v
  if thrSq.getD c 0 ≤ distSq v (groups_mean.getD c []) then -1 else (c : ℤ)

/-- Line 199, `counter_A = Counter(rst_labels)` with
`rst_labels = minikm.labels_`: multiplicity of cluster `k` among the raw
k-means fit labels of the training pixels.  No outlier test is applied on
this path. -/
def countA (fitLabels : List ℕ) (k : ℕ) : ℕ :=
  (fitLabels.filter (fun z => decide (z = k))).length

/-- Lines 202–236 for class B: multiplicity of cluster `k` among the
outlier-filtered labels of the class-B vectors (`counter_B` read at a key
`k ∈ range(clustern)`, so the `-1` entries are never read back). -/
def countB (groups_mean : List (List ℚ)) (thrSq : List ℚ)
    (assign : List ℚ → ℕ) (vsB : List (List ℚ)) (k : ℕ) : ℕ :=
  ((vsB.map (pft_label groups_mean thrSq assign)).filter
    (fun z => decide (z = (k : ℤ)))).length

/-- Following the spec's words (§4.4) for comparison with the code's
`countA`: "cluster assignments (with outlier flags applied) for
Target-class pixels … `countT(k)` [is] the number of non-outlier Target
pixels assigned to k", i.e. the Target-side count with the same outlier
pass the class-B side receives. -/
def countT_spec (groups_mean : List (List ℚ)) (thrSq : List ℚ)
    (assign : List ℚ → ℕ) (vsA : List (List ℚ)) (k : ℕ) : ℕ :=
  ((vsA.map (pft_label groups_mean thrSq assign)).filter
    (fun z => decide (z = (k : ℤ)))).length

/-! ### Grids, connected components, regions -/

/-- The cells of an `H × W` image in row-major (C) order. -/
def gridCells (H W : ℕ) : List (ℤ × ℤ) :=
  ((List.range H).product (List.range W)).map (fun q => ((q.1 : ℤ), (q.2 : ℤ)))

/-- Whether a coordinate pair lies inside the `H × W` grid. -/
def inGridB (H W : ℕ) (p : ℤ × ℤ) : Bool :=
  decide (0 ≤ p.1 ∧ p.1 < (H : ℤ) ∧ 0 ≤ p.2 ∧ p.2 < (W : ℤ))

/-- Array read with scipy's `border_value=0` convention: `false` off-grid. -/
def clip (H W : ℕ) (m : ℤ × ℤ → Bool) (p : ℤ × ℤ) : Bool :=
  inGridB H W p && m p

/-- 4-connectivity (scikit-image `connectivity=1`). -/
def nbr4 (p q : ℤ × ℤ) : Bool :=
  decide ((p.1 - q.1).natAbs + (p.2 - q.2).natAbs = 1)

/-- 8-connectivity (scikit-image `connectivity=2`, the `measure.label`
default for a 2-D image). -/
def nbr8 (p q : ℤ × ℤ) : Bool :=
  decide (p ≠ q ∧ (p.1 - q.1).natAbs ≤ 1 ∧ (p.2 - q.2).natAbs ≤ 1)

/-- One round of component growth: every masked cell of the image that is
in `s` or adjacent to a cell of `s`. -/
def growComp (nbr : ℤ × ℤ → ℤ × ℤ → Bool) (m : ℤ × ℤ → Bool)
    (univ s : List (ℤ × ℤ)) : List (ℤ × ℤ) :=
  univ.filter (fun q => m q && s.any (fun r => decide (r = q) || nbr r q))

/-- Fuelled iteration of `growComp`. -/
def compIter (nbr : ℤ × ℤ → ℤ × ℤ → Bool) (m : ℤ × ℤ → Bool)
    (univ : List (ℤ × ℤ)) : ℕ → List (ℤ × ℤ) → List (ℤ × ℤ)
  | 0, s => s
  | n + 1, s => compIter nbr m univ n (growComp nbr m univ s)

/-- The connected component of `p` in mask `m` (row-major cell order),
empty when `p` is unmasked or off-grid.  Fuel `H*W` reaches the fixed
point, since each round short of it adds at least one of the `H*W` cells. -/
def component (H W : ℕ) (nbr : ℤ × ℤ → ℤ × ℤ → Bool) (m : ℤ × ℤ → Bool)
    (p : ℤ × ℤ) : List (ℤ × ℤ) :=
  compIter nbr m (gridCells H W) (H * W)
    ((gridCells H W).filter (fun q => m q && decide (q = p)))

/-- `skimage.morphology.remove_small_objects(m, min_size)`: keep exactly
the masked pixels whose 4-connected component has at least `minSize`
cells. -/
def remove_small_objects (H W minSize : ℕ) (m : ℤ × ℤ → Bool)
    (p : ℤ × ℤ) : Bool :=
  m p && decide (minSize ≤ (component H W nbr4 m p).length)

/-- `skimage.morphology.remove_small_holes(m, area_threshold)`: complement
inside the grid, remove small objects of the complement, complement again
(the scikit-image implementation). -/
def remove_small_holes (H W thr : ℕ) (m : ℤ × ℤ → Bool) (p : ℤ × ℤ) : Bool :=
  inGridB H W p &&
    !(remove_small_objects H W thr (fun q => inGridB H W q && !(m q)) p)

/-- Lines 306–308: the match mask (`np.isin(labels, pft)`, supplied here as
`matched`) after small-object removal (`min_size=50`) and small-hole
filling (`area_threshold=500`). -/
def highlightMask (H W : ℕ) (matched : ℤ × ℤ → Bool) (p : ℤ × ℤ) : Bool :=
  remove_small_holes H W 500 (remove_small_objects H W 50 matched) p

/-- The connected foreground regions produced by `measure.label` /
`regionprops` (lines 312–313): for every foreground cell that is the
row-major-first cell of its 8-connected component, that component. -/
def regionsOf (H W : ℕ) (fg : ℤ × ℤ → Bool) : List (List (ℤ × ℤ)) :=
  (gridCells H W).filterMap (fun p =>
    if fg p && decide ((component H W nbr8 fg p).head? = some p)
    then some (component H W nbr8 fg p) else none)

/-- Lines 318–319, the per-region decision: positive iff
`region.area > 0 and (highlight_in_region / region.area) >= 0.3`.  Python's
short-circuiting `and` guards the division; here the division is ℚ-total
and the guard is the first conjunct. -/
def region_decision (highlight : ℤ × ℤ → Bool) (R : List (ℤ × ℤ)) : Bool :=
  decide (0 < R.length) &&
    decide ((3 / 10 : ℚ) ≤ ((R.filter highlight).length : ℚ) / (R.length : ℚ))

/-- Lines 315–320: `final_decision_mask`, true on every cell of every
positive region. -/
def final_decision_mask (H W : ℕ) (fg highlight : ℤ × ℤ → Bool)
    (p : ℤ × ℤ) : Bool :=
  (regionsOf H W fg).any (fun R => region_decision highlight R && decide (p ∈ R))

/-- The list of per-region decisions for a test sample whose raw match
mask is `matched` (region order is `measure.label` order). -/
def regionDecisionList (H W : ℕ) (fg matched : ℤ × ℤ → Bool) : List Bool :=
  (regionsOf H W fg).map (region_decision (highlightMask H W matched))

/-! ### Morphological contour extraction (lines 327–345) -/

/-- Offsets of the square structuring element of radius `r`
(`np.ones((2r+1, 2r+1))`). -/
def offs (r : ℕ) : List (ℤ × ℤ) :=
  ((List.range (2 * r + 1)).product (List.range (2 * r + 1))).map
    (fun q => ((q.1 : ℤ) - (r : ℤ), (q.2 : ℤ) - (r : ℤ)))

/-- `scipy.ndimage.binary_erosion` with a `(2r+1) × (2r+1)` block structure
and `border_value=0`: a pixel survives iff every structure neighbour is
inside the grid and set. -/
def erodeS (H W r : ℕ) (m : ℤ × ℤ → Bool) (p : ℤ × ℤ) : Bool :=
  inGridB H W p && (offs r).all (fun d => clip H W m (p.1 + d.1, p.2 + d.2))

/-- `scipy.ndimage.binary_dilation` with the same structure and
`border_value=0`. -/
def dilateS (H W r : ℕ) (m : ℤ × ℤ → Bool) (p : ℤ × ℤ) : Bool :=
  inGridB H W p && (offs r).any (fun d => clip H W m (p.1 + d.1, p.2 + d.2))

/-- Lines 329–332: `binary_closing` with the padded merge structure, a 7×7
block of `True` (radius 3): dilation then erosion. -/
def closing7 (H W : ℕ) (m : ℤ × ℤ → Bool) : ℤ × ℤ → Bool :=
  erodeS H W 3 (dilateS H W 3 m)

/-- Iterated 3×3 erosion (the evolution of `base_eroded`). -/
def erodeIter (H W : ℕ) : ℕ → (ℤ × ℤ → Bool) → ℤ × ℤ → Bool
  | 0, m => m
  | n + 1, m => erodeIter H W n (erodeS H W 1 m)

/-- Lines 336–343: the contour loop.  `base` is `base_eroded`, `thick` is
`thick_contour`; each round records `base & ~eroded` into `thick` and
continues from `eroded`. -/
def contourLoop (H W : ℕ) : ℕ → (ℤ × ℤ → Bool) → (ℤ × ℤ → Bool) → ℤ × ℤ → Bool
  | 0, _, thick => thick
  | n + 1, base, thick =>
    contourLoop H W n (erodeS H W 1 base)
      (fun p => thick p || (base p && !(erodeS H W 1 base p)))

/-- `contour_thickness = 4` (line 280). -/
def contour_thickness : ℕ := 4

/-- `np.sum(mask)` for a boolean image. -/
def countTrue (H W : ℕ) (m : ℤ × ℤ → Bool) : ℕ :=
  ((gridCells H W).filter m).length

/-- Lines 327–345: the contour stage applied to `result_plot`.  If the
decision mask has any positive pixel, close it with the 7×7 merge
structure and run the contour loop (`thick_contour` starts all-zero);
otherwise the contour is the (empty) decision mask itself. -/
def contourStage (H W : ℕ) (result_plot : ℤ × ℤ → Bool) : ℤ × ℤ → Bool :=
  if 0 < countTrue H W result_plot then
    contourLoop H W contour_thickness (closing7 H W result_plot) (fun _ => false)
  else result_plot

/-- An axis-aligned solid square of side `s` with top-left cell `(a, c)`. -/
def squareMask (a c s : ℕ) (p : ℤ × ℤ) : Bool :=
  decide ((a : ℤ) ≤ p.1 ∧ p.1 < (a : ℤ) + (s : ℤ) ∧
          (c : ℤ) ≤ p.2 ∧ p.2 < (c : ℤ) + (s : ℤ))

/-! ### Helper lemmas for the proportion loop -/

theorem propsLoop_eq_none_of_mem {numA numB : ℕ → ℕ} {l : List ℕ} {i : ℕ}
    (hi : i ∈ l) (hz : clusterProp numA numB i = none) :
    propsLoop numA numB l = none := by
  induction l with
  | nil => cases hi
  | cons a t ih =>
    rcases List.mem_cons.mp hi with rfl | hmem
    · cases hpt : propsLoop numA numB t <;> simp [propsLoop, hz, hpt]
    · cases hc : clusterProp numA numB a <;> simp [propsLoop, hc, ih hmem]

theorem propsLoop_map_fst {numA numB : ℕ → ℕ} :
    ∀ {l : List ℕ} {props : List (ℕ × ℚ)},
      propsLoop numA numB l = some props → props.map Prod.fst = l
  | [], props, h => by
      simp only [propsLoop, Option.some.injEq] at h
      subst h; rfl
  | i :: t, props, h => by
      unfold propsLoop at h
      split at h
      · next q tl hq htl =>
          cases h
          simpa using propsLoop_map_fst htl
      · exact absurd h (by simp)

theorem propsLoop_length {numA numB : ℕ → ℕ} {l : List ℕ}
    {props : List (ℕ × ℚ)} (h : propsLoop numA numB l = some props) :
    props.length = l.length := by
  have := congrArg List.length (propsLoop_map_fst h)
  simpa using this

theorem propsLoop_congr {nA nB nA' nB' : ℕ → ℕ}
    (hA : ∀ i, nA i = nA' i) (hB : ∀ i, nB i = nB' i) :
    ∀ l, propsLoop nA nB l = propsLoop nA' nB' l
  | [] => rfl
  | i :: t => by
      have hc : clusterProp nA nB i = clusterProp nA' nB' i := by
        unfold clusterProp; rw [hA i, hB i]
      unfold propsLoop
      rw [hc, propsLoop_congr hA hB t]

theorem propsLoop_eq_map {numA numB : ℕ → ℕ} {f : ℕ → ℚ} :
    ∀ {l : List ℕ}, (∀ i ∈ l, clusterProp numA numB i = some (f i)) →
      propsLoop numA numB l = some (l.map fun i => (i, f i))
  | [], _ => rfl
  | i :: t, h => by
      unfold propsLoop
      rw [h i (List.mem_cons_self i t),
        propsLoop_eq_map (fun j hj => h j (List.mem_cons_of_mem i hj))]
      rfl

theorem calculate_pft_eval {numA numB : ℕ → ℕ} {K : ℕ} {f : ℕ → ℚ}
    (hf : ∀ i ∈ List.range K, clusterProp numA numB i = some (f i))
    (hAB : ((List.range K).map (fun i => numA i + numB i)).sum ≠ 0)
    (hsorted : List.Sorted pftOrder ((List.range K).map fun i => (i, f i))) :
    calculate_pft numA numB K =
      some ⟨(List.range K).map (fun i => (i, f i)),
            (((List.range K).map (fun i => (i, f i))).take (K * 85 / 100)).map Prod.fst,
            (List.range K).map (fun i => (i, f i)),
            ((((List.range K).map numA).sum : ℕ) : ℚ) /
              ((((List.range K).map (fun i => numA i + numB i)).sum : ℕ) : ℚ)⟩ := by
  unfold calculate_pft
  rw [propsLoop_eq_map hf]
  simp only [if_neg hAB, hsorted.insertionSort_eq]

/-! ### C1 — degenerate clusters in template construction -/

/-- C1 (counterexample): with two clusters where cluster 1 has no member at
all, `calculate_pft` does not "complete without a division fault": the
proportion loop of lines 242–246 divides by `num_A[1] + num_B[1] = 0` and
raises `ZeroDivisionError` (modelled by `none`), so no cluster is ranked
and no Template is produced — the degenerate cluster is not merely
"excluded from the proportion ranking". -/
theorem C1_counterexample :
    cOneAtZero 1 + cOneAtZero 1 = 0 ∧
    calculate_pft cOneAtZero cOneAtZero 2 = none :=
  ⟨rfl, rfl⟩

/-- C1 (amended): whenever some cluster id below `clustern` has zero total
membership, `calculate_pft` raises `ZeroDivisionError` (result `none`)
instead of completing with that cluster excluded from the ranking. -/
theorem C1_theorem (numA numB : ℕ → ℕ) (clustern i : ℕ)
    (hi : i < clustern) (hz : numA i + numB i = 0) :
    calculate_pft numA numB clustern = none := by
  have h0 : clusterProp numA numB i = none := by simp [clusterProp, hz]
  unfold calculate_pft
  rw [propsLoop_eq_none_of_mem (List.mem_range.mpr hi) h0]

/-- C1 (witness): the amended statement at a concrete degenerate input. -/
theorem C1_witness : calculate_pft cAllZero cAllZero 3 = none :=
  C1_theorem cAllZero cAllZero 3 0 (by decide) rfl

/-! ### C3 — size of the selected Template -/

/-- C3 (counterexample): at `clustern = 8` with every cluster populated,
the Template produced by line 251 (`top_percent = int(clustern * 0.85)`,
i.e. truncation) has 6 entries, not the `ceil(8 * 0.85) = 7` the claim
demands: `6 < 8·0.85 ≤ 7` pins the ceiling at `7`. -/
theorem C3_counterexample :
    (calculate_pft cAllOne cAllOne 8).map (fun r => r.pft.length) = some 6 ∧
    (6 : ℚ) < 8 * (85 / 100) ∧ 8 * ((85 : ℚ) / 100) ≤ 7 := by
  refine ⟨?_, by norm_num, by norm_num⟩
  rw [@calculate_pft_eval cAllOne cAllOne 8 (fun _ => 1 / 2)
    (fun i _ => by simp [clusterProp, cAllOne]; norm_num)
    (by decide)
    (List.pairwise_map.mpr
      ((List.pairwise_lt_range 8).imp fun hij => Or.inr ⟨rfl, Nat.le_of_lt hij⟩))]
  rfl

/-- C3 (amended): whenever `calculate_pft` completes, the Template contains
exactly `int(K * 0.85) = ⌊K·0.85⌋` cluster ids (truncation, not ceiling) —
in particular 435, not 436, ids for `K = 512`. -/
theorem C3_theorem (numA numB : ℕ → ℕ) (clustern : ℕ) (r : PFTResult)
    (h : calculate_pft numA numB clustern = some r) :
    r.pft.length = clustern * 85 / 100 := by
  simp only [calculate_pft] at h
  split at h
  · exact absurd h (by simp)
  · next props hp =>
      split at h
      · exact absurd h (by simp)
      · cases h
        simp only [List.length_map, List.length_take, List.length_insertionSort,
          propsLoop_length hp, List.length_range]
        omega

/-- C3 (witness): the amended statement at the default cluster count
`K = 512`, where the Template has `512 * 85 / 100 = 435` entries. -/
theorem C3_witness :
    (calculate_pft cAllOne cAllOne 512).map (fun r => r.pft.length) = some 435 := by
  have hs : (calculate_pft cAllOne cAllOne 512).isSome = true := by rfl
  cases h : calculate_pft cAllOne cAllOne 512 with
  | none => rw [h] at hs; simp at hs
  | some r =>
      have hlen := C3_theorem cAllOne cAllOne 512 r h
      simp only [Option.map_some', hlen]

/-! ### C6 — determinism and ordering of the ranking -/

/-- C6: template selection is a deterministic function of the per-cluster
counts (pointwise-equal counters give the identical result), and whenever
`calculate_pft` completes, its ranking is strictly descending by
proportion with ties broken by strictly ascending cluster id, and the
Template is the ordered prefix of `int(clustern*0.85)` ids of that
ranking. -/
theorem C6_theorem (numA numB numA' numB' : ℕ → ℕ) (clustern : ℕ) (r : PFTResult)
    (hA : ∀ i, numA i = numA' i) (hB : ∀ i, numB i = numB' i) :
    calculate_pft numA numB clustern = calculate_pft numA' numB' clustern ∧
    (calculate_pft numA numB clustern = some r →
      r.ranking.Pairwise (fun x y => y.2 < x.2 ∨ (x.2 = y.2 ∧ x.1 < y.1)) ∧
      r.pft = (r.ranking.take (clustern * 85 / 100)).map Prod.fst) := by
  constructor
  · unfold calculate_pft
    rw [propsLoop_congr hA hB,
      List.map_congr_left (fun i _ => hA i),
      List.map_congr_left (fun i _ => by rw [hA i, hB i] :
        ∀ i, i ∈ List.range clustern → numA i + numB i = numA' i + numB' i)]
  · intro h
    simp only [calculate_pft] at h
    split at h
    · exact absurd h (by simp)
    · next props hp =>
        split at h
        · exact absurd h (by simp)
        · cases h
          refine ⟨?_, rfl⟩
          have hsorted := List.sorted_insertionSort pftOrder props
          have hperm := List.perm_insertionSort pftOrder props
          have hnodup : (props.map Prod.fst).Nodup := by
            rw [propsLoop_map_fst hp]; exact List.nodup_range _
          have hnodup2 : ((List.insertionSort pftOrder props).map Prod.fst).Nodup :=
            ((hperm.map Prod.fst).nodup_iff).mpr hnodup
          have hpairne : (List.insertionSort pftOrder props).Pairwise
              (fun x y => x.1 ≠ y.1) := List.pairwise_map.mp hnodup2
          refine (hsorted.and hpairne).imp ?_
          rintro a b ⟨hord, hne⟩
          rcases hord with hlt | ⟨heq, hle⟩
          · exact Or.inl hlt
          · exact Or.inr ⟨heq, lt_of_le_of_ne hle hne⟩

/-- C6 (witness): the statement at concrete identical counters with the
concrete result of `calculate_pft` at `K = 2`. -/
theorem C6_witness :
    calculate_pft cAllOne cAllOne 2 = calculate_pft cAllOne cAllOne 2 ∧
    (calculate_pft cAllOne cAllOne 2 =
        some ⟨[(0, 1/2), (1, 1/2)], [0], [(0, 1/2), (1, 1/2)], 1/2⟩ →
      List.Pairwise (fun (x y : ℕ × ℚ) => y.2 < x.2 ∨ (x.2 = y.2 ∧ x.1 < y.1))
          [(0, 1/2), (1, 1/2)] ∧
      ([0] : List ℕ) =
        (([(0, 1/2), (1, 1/2)] : List (ℕ × ℚ)).take (2 * 85 / 100)).map Prod.fst) :=
  C6_theorem cAllOne cAllOne cAllOne cAllOne 2
    ⟨[(0, 1/2), (1, 1/2)], [0], [(0, 1/2), (1, 1/2)], 1/2⟩
    (fun _ => rfl) (fun _ => rfl)

/-! ### C10 — no minimum proportion for Template membership -/

/-- C10: template selection imposes no minimum proportion: at `K = 8` with
one Target member in cluster 0 and one NonTarget member in every cluster,
cluster 1 has proportion `0` (no Target members at all) yet is selected
into the Template, because selection always takes the fixed top-ranked
prefix of `int(K*0.85)` ids. -/
theorem C10_theorem :
    (calculate_pft cOneAtZero cAllOne 8).map (fun r => r.pft) =
      some [0, 1, 2, 3, 4, 5] ∧
    (1 : ℕ) ∈ [0, 1, 2, 3, 4, 5] ∧
    clusterProp cOneAtZero cAllOne 1 = some 0 := by
  refine ⟨?_, by decide, by norm_num [clusterProp, cOneAtZero, cAllOne]⟩
  rw [@calculate_pft_eval cOneAtZero cAllOne 8 (fun i => if i = 0 then 1 / 2 else 0)
    (fun i _ => by
      rcases Nat.eq_zero_or_pos i with rfl | hi
      · simp only [clusterProp, cOneAtZero, cAllOne, if_pos rfl]
        norm_num
      · have : i ≠ 0 := Nat.pos_iff_ne_zero.mp hi
        simp only [clusterProp, cOneAtZero, cAllOne, if_neg this]
        norm_num)
    (by decide)
    (List.pairwise_map.mpr ((List.pairwise_lt_range 8).imp ?_))]
  · rfl
  · intro i j hij
    rcases Nat.eq_zero_or_pos i with rfl | hi
    · have : j ≠ 0 := Nat.pos_iff_ne_zero.mp hij
      simp only [if_pos rfl, if_neg this]
      exact Or.inl (by norm_num)
    · have hi0 : i ≠ 0 := Nat.pos_iff_ne_zero.mp hi
      have hj0 : j ≠ 0 := Nat.pos_iff_ne_zero.mp (lt_trans hi hij)
      simp only [if_neg hi0, if_neg hj0]
      exact Or.inr ⟨rfl, Nat.le_of_lt hij⟩

/-! ### C2 — the outlier tests of the two classification paths -/

theorem getD_tripleStdSqOf (groups_std : List (List ℚ)) :
    ∀ c : ℕ, (tripleStdSqOf groups_std).getD c 0 = tripleStdSq (groups_std.getD c []) := by
  induction groups_std with
  | nil =>
      intro c
      simp [tripleStdSqOf, tripleStdSq]
  | cons s t ih =>
      intro c
      cases c with
      | zero => simp [tripleStdSqOf]
      | succ c => simpa [tripleStdSqOf] using ih c

/-- C2 (counterexample): in the inference path (`predict_and_visualize`,
lines 294–299) a vector at distance *exactly* the 3-sigma radius is
flagged Outlier (`distance >= triple_std[a]`), although its distance does
not strictly exceed the threshold: with mean `(0,0,0)`, per-feature stds
`(1,1,1)` and vector `(3,0,0)`, the squared distance `9` equals the
squared radius `3·(1+1+1) = 9`, yet the final label is `-1`. -/
theorem C2_counterexample :
    predict_label [[0, 0, 0]] (tripleStdSqOf [[1, 1, 1]]) (fun _ => 0) [3, 0, 0] = -1 ∧
    distSq [3, 0, 0] [0, 0, 0] = tripleStdSq [1, 1, 1] ∧
    ¬(tripleStdSq [1, 1, 1] < distSq [3, 0, 0] [0, 0, 0]) := by
  have h9 : distSq [3, 0, 0] [0, 0, 0] = 9 := by
    norm_num [distSq]
  have h9' : tripleStdSq [1, 1, 1] = 9 := by
    norm_num [tripleStdSq]
  refine ⟨?_, by rw [h9, h9'], by rw [h9, h9']; exact lt_irrefl 9⟩
  simp only [predict_label]
  rw [getD_tripleStdSqOf]
  simp only [List.getD_cons_zero, h9, h9']
  rw [if_pos le_rfl]

/-- C2 (amended): a classified vector is flagged Outlier iff its distance
to the assigned cluster's mean *strictly* exceeds the 3-sigma radius
`sqrt(3 · Σᵢ stdᵢ²)` in the template-building path (`calculate_pft`,
`distance > triple_std`), but iff the distance is *greater than or equal*
to the radius in the inference path (`predict_and_visualize`,
`distance >= triple_std`).  Stated on squared distances, which is
equivalent since both sides are nonnegative. -/
theorem C2_theorem (groups_mean groups_std : List (List ℚ))
    (assign : List ℚ → ℕ) (v : List ℚ) :
    (pft_label groups_mean (tripleStdSqOf groups_std) assign v = -1 ↔
      tripleStdSq (groups_std.getD (assign v) []) <
        distSq v (groups_mean.getD (assign v) [])) ∧
    (predict_label groups_mean (tripleStdSqOf groups_std) assign v = -1 ↔
      tripleStdSq (groups_std.getD (assign v) []) ≤
        distSq v (groups_mean.getD (assign v) [])) := by
  simp only [pft_label, predict_label]
  rw [getD_tripleStdSqOf]
  constructor <;> constructor <;> intro h
  · by_contra hc
    rw [if_neg hc] at h
    omega
  · rw [if_pos h]
  · by_contra hc
    rw [if_neg hc] at h
    omega
  · rw [if_pos h]

/-- C2 (witness): the amended statement at the concrete single-cluster
instance of the spec's own outlier scenario (mean 0, unit std,
1 dimension). -/
theorem C2_witness :
    (pft_label [[0]] (tripleStdSqOf [[1]]) (fun _ => 0) [2] = -1 ↔
      tripleStdSq (([[1]] : List (List ℚ)).getD 0 []) <
        distSq [2] (([[0]] : List (List ℚ)).getD 0 [])) ∧
    (predict_label [[0]] (tripleStdSqOf [[1]]) (fun _ => 0) [2] = -1 ↔
      tripleStdSq (([[1]] : List (List ℚ)).getD 0 []) ≤
        distSq [2] (([[0]] : List (List ℚ)).getD 0 [])) :=
  C2_theorem [[0]] [[1]] (fun _ => 0) [2]

/-! ### C4 — Target-side counts apply no outlier exclusion -/

/-- C4 (counterexample): one cluster with mean `(0)`, std `(1)` (squared
radius `3`), one Target training vector `(2)` with k-means fit label `0`.
The vector fails the outlier test (its own label map sends it to `-1`,
squared distance `4 > 3`), so the spec-side count `countT_spec` excludes
it, yet the code's `counter_A = Counter(minikm.labels_)` still counts it:
`countA = 1 ≠ 0`. -/
theorem C4_counterexample :
    countA [0] 0 = 1 ∧
    pft_label [[0]] (tripleStdSqOf [[1]]) (fun _ => 0) [2] = -1 ∧
    countT_spec [[0]] (tripleStdSqOf [[1]]) (fun _ => 0) [[2]] 0 = 0 := by
  have h4 : distSq [2] [0] = 4 := by norm_num [distSq]
  have hlab : pft_label [[0]] (tripleStdSqOf [[1]]) (fun _ => 0) [2] = -1 := by
    simp only [pft_label]
    rw [getD_tripleStdSqOf]
    simp only [List.getD_cons_zero, h4]
    rw [if_pos (by norm_num [tripleStdSq])]
  refine ⟨by decide, hlab, ?_⟩
  unfold countT_spec
  rw [show ([[2]] : List (List ℚ)).map (pft_label [[0]] (tripleStdSqOf [[1]]) (fun _ => 0))
        = [-1] from by rw [List.map_cons, hlab]; rfl]
  rfl

/-- C4 (amended): only the NonTarget path applies the outlier exclusion:
`countN(k)` counts exactly the class-B vectors assigned to cluster `k`
whose distance does not strictly exceed the 3-sigma radius, while
`countT(k)` is the raw multiplicity of `k` among the k-means fit labels,
with no outlier test (`counter_A = Counter(minikm.labels_)`, line 199). -/
theorem C4_theorem (groups_mean : List (List ℚ)) (thrSq : List ℚ)
    (assign : List ℚ → ℕ) (vsB : List (List ℚ)) (k : ℕ) (fitLabels : List ℕ) :
    countB groups_mean thrSq assign vsB k =
      (vsB.filter (fun v => decide (assign v = k) &&
        !(decide (thrSq.getD (assign v) 0 <
            distSq v (groups_mean.getD (assign v) []))))).length ∧
    countA fitLabels k = (fitLabels.filter (fun z => decide (z = k))).length := by
  refine ⟨?_, rfl⟩
  induction vsB with
  | nil => rfl
  | cons v t ih =>
      unfold countB at *
      rw [List.map_cons]
      by_cases hout : thrSq.getD (assign v) 0 <
          distSq v (groups_mean.getD (assign v) [])
      · have hl : pft_label groups_mean thrSq assign v = -1 := by
          simp only [pft_label]
          rw [if_pos hout]
        rw [hl,
          List.filter_cons_of_neg (by
            simp only [decide_eq_true_eq]
            omega),
          List.filter_cons_of_neg (by
            simp only [Bool.and_eq_true, Bool.not_eq_true', decide_eq_false_iff_not]
            rintro ⟨-, hc⟩
            exact hc hout)]
        exact ih
      · have hl : pft_label groups_mean thrSq assign v = (assign v : ℤ) := by
          simp only [pft_label]
          rw [if_neg hout]
        rw [hl]
        by_cases hk : assign v = k
        · rw [List.filter_cons_of_pos (by
              simp only [decide_eq_true_eq]
              exact_mod_cast hk),
            List.filter_cons_of_pos (by
              simp only [Bool.and_eq_true, Bool.not_eq_true', decide_eq_true_eq,
                decide_eq_false_iff_not]
              exact ⟨hk, hout⟩)]
          simp only [List.length_cons, ih]
        · rw [List.filter_cons_of_neg (by
              simp only [decide_eq_true_eq]
              intro hc
              exact hk (by exact_mod_cast hc)),
            List.filter_cons_of_neg (by
              simp only [Bool.and_eq_true, Bool.not_eq_true', decide_eq_true_eq,
                decide_eq_false_iff_not]
              rintro ⟨hc, -⟩
              exact hk hc)]
          exact ih

/-! ### Helper lemmas: grids, components, monotonicity -/

theorem mem_gridCells {H W : ℕ} {p : ℤ × ℤ} :
    p ∈ gridCells H W ↔ 0 ≤ p.1 ∧ p.1 < (H : ℤ) ∧ 0 ≤ p.2 ∧ p.2 < (W : ℤ) := by
  unfold gridCells
  rw [List.mem_map]
  constructor
  · rintro ⟨⟨i, j⟩, hmem, rfl⟩
    simp only [List.product, List.mem_flatMap, List.mem_map, List.mem_range,
      Prod.mk.injEq] at hmem
    obtain ⟨a, ha, b, hb, rfl, rfl⟩ := hmem
    dsimp only
    refine ⟨Int.ofNat_nonneg a, by exact_mod_cast ha, Int.ofNat_nonneg b, by exact_mod_cast hb⟩
  · rintro ⟨h1, h2, h3, h4⟩
    refine ⟨(p.1.toNat, p.2.toNat), ?_, ?_⟩
    · simp only [List.product, List.mem_flatMap, List.mem_map, List.mem_range,
        Prod.mk.injEq]
      exact ⟨p.1.toNat, by omega, p.2.toNat, by omega, rfl, rfl⟩
    · obtain ⟨x, y⟩ := p
      simp only [Prod.mk.injEq]
      omega

theorem gridCells_nodup (H W : ℕ) : (gridCells H W).Nodup := by
  unfold gridCells
  refine List.Nodup.map ?_ (List.Nodup.product (List.nodup_range _) (List.nodup_range _))
  rintro ⟨a1, a2⟩ ⟨b1, b2⟩ hab
  simp only [Prod.mk.injEq] at hab ⊢
  omega

theorem growComp_mono {nbr : ℤ × ℤ → ℤ × ℤ → Bool} {m1 m2 : ℤ × ℤ → Bool}
    {univ s1 s2 : List (ℤ × ℤ)} (hm : ∀ p, m1 p = true → m2 p = true)
    (hs : ∀ x ∈ s1, x ∈ s2) :
    ∀ x ∈ growComp nbr m1 univ s1, x ∈ growComp nbr m2 univ s2 := by
  intro x hx
  simp only [growComp, List.mem_filter, Bool.and_eq_true, List.any_eq_true] at hx ⊢
  obtain ⟨hu, hmx, r, hr, hrx⟩ := hx
  exact ⟨hu, hm x hmx, r, hs r hr, hrx⟩

theorem compIter_mono {nbr : ℤ × ℤ → ℤ × ℤ → Bool} {m1 m2 : ℤ × ℤ → Bool}
    {univ : List (ℤ × ℤ)} (hm : ∀ p, m1 p = true → m2 p = true) :
    ∀ (n : ℕ) (s1 s2 : List (ℤ × ℤ)), (∀ x ∈ s1, x ∈ s2) →
      ∀ x ∈ compIter nbr m1 univ n s1, x ∈ compIter nbr m2 univ n s2
  | 0, _, _, hs => hs
  | n + 1, _, _, hs => compIter_mono hm n _ _ (growComp_mono hm hs)

theorem component_mono {H W : ℕ} {nbr : ℤ × ℤ → ℤ × ℤ → Bool} {m1 m2 : ℤ × ℤ → Bool}
    (hm : ∀ p, m1 p = true → m2 p = true) (p : ℤ × ℤ) :
    ∀ x ∈ component H W nbr m1 p, x ∈ component H W nbr m2 p := by
  apply compIter_mono hm
  intro x hx
  simp only [List.mem_filter, Bool.and_eq_true, decide_eq_true_eq] at hx ⊢
  exact ⟨hx.1, hm x hx.2.1, hx.2.2⟩

theorem compIter_filter (nbr : ℤ × ℤ → ℤ × ℤ → Bool) (m : ℤ × ℤ → Bool)
    (univ : List (ℤ × ℤ)) :
    ∀ (n : ℕ) (f : ℤ × ℤ → Bool),
      ∃ g, compIter nbr m univ n (univ.filter f) = univ.filter g
  | 0, f => ⟨f, rfl⟩
  | n + 1, f =>
      compIter_filter nbr m univ n
        (fun q => m q && (univ.filter f).any (fun r => decide (r = q) || nbr r q))

theorem component_nodup (H W : ℕ) (nbr : ℤ × ℤ → ℤ × ℤ → Bool)
    (m : ℤ × ℤ → Bool) (p : ℤ × ℤ) : (component H W nbr m p).Nodup := by
  unfold component
  obtain ⟨g, hg⟩ :=
    compIter_filter nbr m (gridCells H W) (H * W) (fun q => m q && decide (q = p))
  rw [hg]
  exact (gridCells_nodup H W).filter _

theorem nodup_subset_length_le {l1 l2 : List (ℤ × ℤ)} (h1 : l1.Nodup)
    (hs : ∀ x ∈ l1, x ∈ l2) : l1.length ≤ l2.length := by
  calc l1.length = l1.toFinset.card := (List.toFinset_card_of_nodup h1).symm
    _ ≤ l2.toFinset.card := Finset.card_le_card (fun x hx => by
        simp only [List.mem_toFinset] at hx ⊢
        exact hs x hx)
    _ ≤ l2.length := List.toFinset_card_le l2

theorem componentSize_mono {H W : ℕ} {nbr : ℤ × ℤ → ℤ × ℤ → Bool}
    {m1 m2 : ℤ × ℤ → Bool} (hm : ∀ p, m1 p = true → m2 p = true) (p : ℤ × ℤ) :
    (component H W nbr m1 p).length ≤ (component H W nbr m2 p).length :=
  nodup_subset_length_le (component_nodup H W nbr m1 p) (component_mono hm p)

theorem remove_small_objects_mono {H W mins : ℕ} {m1 m2 : ℤ × ℤ → Bool}
    (hm : ∀ p, m1 p = true → m2 p = true) :
    ∀ p, remove_small_objects H W mins m1 p = true →
      remove_small_objects H W mins m2 p = true := by
  intro p h
  simp only [remove_small_objects, Bool.and_eq_true, decide_eq_true_eq] at h ⊢
  exact ⟨hm p h.1, le_trans h.2 (componentSize_mono hm p)⟩

theorem remove_small_holes_mono {H W thr : ℕ} {m1 m2 : ℤ × ℤ → Bool}
    (hm : ∀ p, m1 p = true → m2 p = true) :
    ∀ p, remove_small_holes H W thr m1 p = true →
      remove_small_holes H W thr m2 p = true := by
  intro p h
  simp only [remove_small_holes, Bool.and_eq_true, Bool.not_eq_true'] at h ⊢
  refine ⟨h.1, ?_⟩
  by_contra hc
  rw [Bool.not_eq_false] at hc
  have hanti : ∀ q, (inGridB H W q && !(m2 q)) = true → (inGridB H W q && !(m1 q)) = true := by
    intro q hq
    simp only [Bool.and_eq_true, Bool.not_eq_true'] at hq ⊢
    refine ⟨hq.1, ?_⟩
    cases hb : m1 q
    · rfl
    · rw [hm q hb] at hq
      exact absurd hq.2 (by simp)
  have := remove_small_objects_mono hanti p hc
  rw [h.2] at this
  exact absurd this (by simp)

theorem highlightMask_mono {H W : ℕ} {m1 m2 : ℤ × ℤ → Bool}
    (hm : ∀ p, m1 p = true → m2 p = true) :
    ∀ p, highlightMask H W m1 p = true → highlightMask H W m2 p = true :=
  fun p h => remove_small_holes_mono (remove_small_objects_mono hm) p h

theorem filter_length_mono {l : List (ℤ × ℤ)} {f g : ℤ × ℤ → Bool}
    (h : ∀ x ∈ l, f x = true → g x = true) :
    (l.filter f).length ≤ (l.filter g).length := by
  induction l with
  | nil => exact le_refl 0
  | cons a t ih =>
      have iht := ih (fun x hx => h x (List.mem_cons_of_mem a hx))
      cases hf : f a
      · rw [List.filter_cons_of_neg (by simp [hf])]
        cases hg : g a
        · rw [List.filter_cons_of_neg (by simp [hg])]
          exact iht
        · rw [List.filter_cons_of_pos hg]
          exact le_trans iht (Nat.le_succ _)
      · rw [List.filter_cons_of_pos hf, List.filter_cons_of_pos (h a (List.mem_cons_self a t) hf)]
        exact Nat.succ_le_succ iht

theorem region_decision_eq_true_iff {hl : ℤ × ℤ → Bool} {R : List (ℤ × ℤ)} :
    region_decision hl R = true ↔
      0 < R.length ∧ (3 / 10 : ℚ) ≤ ((R.filter hl).length : ℚ) / (R.length : ℚ) := by
  simp [region_decision, Bool.and_eq_true, decide_eq_true_eq]

/-! ### C5 — region decisions and the processed match mask -/

/-- C5 (counterexample): on a 2×2 sample whose foreground is the whole
grid and whose raw match mask is empty (no pixel's label is in the
Template), the claim demands a negative decision — the raw coverage is
`0/4 < 0.3`.  But the code computes coverage from the *processed* mask:
`remove_small_holes(remove_small_objects(∅, 50), 500)` fills the whole
4-pixel background (a "hole" smaller than 500 px), so the processed
coverage is `4/4` and the region decision comes out positive. -/
theorem C5_counterexample :
    final_decision_mask 2 2 (fun _ => true) (highlightMask 2 2 (fun _ => false)) (0, 0) = true ∧
    ((gridCells 2 2).filter (fun _ => false)).length = 0 ∧
    ¬((3 / 10 : ℚ) ≤ (((gridCells 2 2).filter (fun _ => false)).length : ℚ) /
        ((gridCells 2 2).length : ℚ)) := by
  refine ⟨?_, by decide, ?_⟩
  · have hreg : regionsOf 2 2 (fun _ => true) =
        [[((0 : ℤ), (0 : ℤ)), (0, 1), (1, 0), (1, 1)]] := by decide
    have hcount : (([((0 : ℤ), (0 : ℤ)), (0, 1), (1, 0), (1, 1)]).filter
        (highlightMask 2 2 (fun _ => false))).length = 4 := by decide
    unfold final_decision_mask
    rw [hreg]
    simp only [List.any_cons, List.any_nil, Bool.or_false, Bool.and_eq_true]
    refine ⟨region_decision_eq_true_iff.mpr ⟨by decide, ?_⟩, by decide⟩
    rw [hcount]
    norm_num
  · rw [show ((gridCells 2 2).filter (fun _ => false)).length = 0 from by decide,
      show (gridCells 2 2).length = 4 from by decide]
    norm_num

/-- C5 (amended): the decision mask marks a pixel iff some connected
foreground region containing it is nonempty and has coverage `≥ 0.3`
measured on the *processed* match mask (small objects `< 50` px removed,
then small holes `< 500` px filled), not on the raw Template-match mask;
a zero-pixel region always yields a negative decision, and no division by
zero occurs (the area guard is evaluated first). -/
theorem C5_theorem (H W : ℕ) (fg matched : ℤ × ℤ → Bool) :
    (∀ p, final_decision_mask H W fg (highlightMask H W matched) p = true ↔
      ∃ R, R ∈ regionsOf H W fg ∧ p ∈ R ∧ 0 < R.length ∧
        (3 / 10 : ℚ) ≤ ((R.filter (highlightMask H W matched)).length : ℚ) /
          (R.length : ℚ)) ∧
    (∀ R, R.length = 0 → region_decision (highlightMask H W matched) R = false) := by
  constructor
  · intro p
    simp only [final_decision_mask, List.any_eq_true, Bool.and_eq_true, decide_eq_true_eq]
    constructor
    · rintro ⟨R, hR, hdec, hmem⟩
      rw [region_decision_eq_true_iff] at hdec
      exact ⟨R, hR, hmem, hdec.1, hdec.2⟩
    · rintro ⟨R, hR, hmem, hlen, hcov⟩
      exact ⟨R, hR, region_decision_eq_true_iff.mpr ⟨hlen, hcov⟩, hmem⟩
  · intro R h0
    simp [region_decision, h0]

/-! ### C8 — monotonicity of the region decision in the matched set -/

/-- C8: for a fixed foreground region and the fixed threshold `0.3`,
enlarging the set of Template-matched pixels never flips a positive
region decision to negative — including through the small-object and
small-hole processing of the matched mask, both of which are monotone
with respect to pixelwise inclusion of masks. -/
theorem C8_theorem (H W : ℕ) (fg M1 M2 : ℤ × ℤ → Bool)
    (hsub : ∀ p, M1 p = true → M2 p = true)
    (R : List (ℤ × ℤ)) (hR : R ∈ regionsOf H W fg)
    (hpos : region_decision (highlightMask H W M1) R = true) :
    region_decision (highlightMask H W M2) R = true := by
  rw [region_decision_eq_true_iff] at hpos ⊢
  obtain ⟨hlen, hcov⟩ := hpos
  refine ⟨hlen, le_trans hcov ?_⟩
  have hc : ((R.filter (highlightMask H W M1)).length : ℚ) ≤
      ((R.filter (highlightMask H W M2)).length : ℚ) := by
    exact_mod_cast filter_length_mono (fun x _ hx => highlightMask_mono hsub x hx)
  have hl : (0 : ℚ) < (R.length : ℚ) := by exact_mod_cast hlen
  exact (div_le_div_right hl).mpr hc

/-- C8 (witness): the statement at a concrete 2×2 instance where the whole
grid is one foreground region, `M1` is empty and `M2` is full. -/
theorem C8_witness :
    region_decision (highlightMask 2 2 (fun _ => true))
      [((0 : ℤ), (0 : ℤ)), (0, 1), (1, 0), (1, 1)] = true := by
  refine C8_theorem 2 2 (fun _ => true) (fun _ => false) (fun _ => true)
    (fun p h => Bool.noConfusion h)
    [((0 : ℤ), (0 : ℤ)), (0, 1), (1, 0), (1, 1)] (by decide) ?_
  refine region_decision_eq_true_iff.mpr ⟨by decide, ?_⟩
  rw [show (([((0 : ℤ), (0 : ℤ)), (0, 1), (1, 0), (1, 1)]).filter
      (highlightMask 2 2 (fun _ => false))).length = 4 from by decide]
  norm_num

/-! ### C9 — samples with no foreground pixels -/

/-- C9: a test sample whose foreground mask has no pixel inside the grid
yields no region, an empty list of region decisions and an all-false
contour mask; nothing fails — `regionprops` iterates an empty region
list and the contour stage takes its empty branch. -/
theorem C9_theorem (H W : ℕ) (fg matched : ℤ × ℤ → Bool)
    (hfg : ∀ p ∈ gridCells H W, fg p = false) :
    regionsOf H W fg = [] ∧
    regionDecisionList H W fg matched = [] ∧
    ∀ p, contourStage H W (final_decision_mask H W fg (highlightMask H W matched)) p = false := by
  have hreg : regionsOf H W fg = [] := by
    unfold regionsOf
    rw [List.filterMap_eq_nil]
    intro p hp
    rw [hfg p hp]
    rfl
  have hmask : ∀ p, final_decision_mask H W fg (highlightMask H W matched) p = false := by
    intro p
    unfold final_decision_mask
    rw [hreg]
    rfl
  refine ⟨hreg, ?_, ?_⟩
  · unfold regionDecisionList
    rw [hreg]
    rfl
  · intro p
    unfold contourStage
    rw [if_neg]
    · exact hmask p
    · simp only [countTrue, not_lt, Nat.le_zero, List.length_eq_zero]
      rw [List.filter_eq_nil]
      intro a _
      rw [hmask a]
      simp

/-- C9 (witness): the statement at a concrete 2×2 sample with empty
foreground. -/
theorem C9_witness :
    regionsOf 2 2 (fun _ => false) = [] ∧
    contourStage 2 2 (final_decision_mask 2 2 (fun _ => false)
      (highlightMask 2 2 (fun _ => true))) (0, 0) = false := by
  have h := C9_theorem 2 2 (fun _ => false) (fun _ => true) (fun p _ => rfl)
  exact ⟨h.1, h.2.2 (0, 0)⟩

/-! ### Helper lemmas: morphology on solid squares -/

theorem bool_ext {a b : Bool} (h : a = true ↔ b = true) : a = b := by
  cases a <;> cases b <;> simp_all

theorem mem_offs {r : ℕ} {d : ℤ × ℤ} :
    d ∈ offs r ↔ -(r : ℤ) ≤ d.1 ∧ d.1 ≤ r ∧ -(r : ℤ) ≤ d.2 ∧ d.2 ≤ r := by
  unfold offs
  rw [List.mem_map]
  constructor
  · rintro ⟨⟨i, j⟩, hmem, rfl⟩
    simp only [List.product, List.mem_flatMap, List.mem_map, List.mem_range,
      Prod.mk.injEq] at hmem
    obtain ⟨u, hu, v, hv, rfl, rfl⟩ := hmem
    dsimp only
    omega
  · rintro ⟨h1, h2, h3, h4⟩
    refine ⟨((d.1 + r).toNat, (d.2 + r).toNat), ?_, ?_⟩
    · simp only [List.product, List.mem_flatMap, List.mem_map, List.mem_range,
        Prod.mk.injEq]
      exact ⟨(d.1 + r).toNat, by omega, (d.2 + r).toNat, by omega, rfl, rfl⟩
    · obtain ⟨u, v⟩ := d
      simp only [Prod.mk.injEq]
      omega

theorem erodeS_subset {H W r : ℕ} {m : ℤ × ℤ → Bool} {p : ℤ × ℤ}
    (h : erodeS H W r m p = true) : m p = true := by
  simp only [erodeS, clip, Bool.and_eq_true, List.all_eq_true] at h
  have h0 := h.2 (0, 0) (mem_offs.mpr ⟨by omega, by omega, by omega, by omega⟩)
  obtain ⟨x, y⟩ := p
  simpa using h0.2

theorem erodeIter_subset {H W : ℕ} :
    ∀ (n : ℕ) (m : ℤ × ℤ → Bool) (p : ℤ × ℤ),
      erodeIter H W n m p = true → m p = true
  | 0, _, _, h => h
  | n + 1, m, p, h => erodeS_subset (erodeIter_subset n (erodeS H W 1 m) p h)

theorem contourLoop_eq {H W : ℕ} :
    ∀ (n : ℕ) (base thick : ℤ × ℤ → Bool) (p : ℤ × ℤ),
      contourLoop H W n base thick p =
        (thick p || (base p && !(erodeIter H W n base p)))
  | 0, base, thick, p => by
      cases ht : thick p <;> cases hb : base p <;>
        simp [contourLoop, erodeIter, ht, hb]
  | n + 1, base, thick, p => by
      show contourLoop H W n (erodeS H W 1 base)
        (fun q => thick q || (base q && !(erodeS H W 1 base q))) p = _
      rw [contourLoop_eq n]
      have hstep : erodeIter H W (n + 1) base p =
          erodeIter H W n (erodeS H W 1 base) p := rfl
      rw [hstep]
      have i1 : erodeIter H W n (erodeS H W 1 base) p = true →
          erodeS H W 1 base p = true := erodeIter_subset n _ p
      have i2 : erodeS H W 1 base p = true → base p = true := erodeS_subset
      cases ht : thick p <;> cases hb : base p <;> cases he : erodeS H W 1 base p <;>
        cases hen : erodeIter H W n (erodeS H W 1 base) p <;> simp_all

theorem erodeS_square {H W r a c s : ℕ} (hH : a + s ≤ H) (hW : c + s ≤ W) :
    erodeS H W r (squareMask a c s) = squareMask (a + r) (c + r) (s - 2 * r) := by
  funext p
  obtain ⟨x, y⟩ := p
  apply bool_ext
  simp only [erodeS, clip, inGridB, squareMask, List.all_eq_true, Bool.and_eq_true,
    decide_eq_true_eq]
  constructor
  · rintro ⟨hg, hall⟩
    have h1 := hall ((r : ℤ), 0) (mem_offs.mpr ⟨by omega, by omega, by omega, by omega⟩)
    have h2 := hall (-(r : ℤ), 0) (mem_offs.mpr ⟨by omega, by omega, by omega, by omega⟩)
    have h3 := hall (0, (r : ℤ)) (mem_offs.mpr ⟨by omega, by omega, by omega, by omega⟩)
    have h4 := hall (0, -(r : ℤ)) (mem_offs.mpr ⟨by omega, by omega, by omega, by omega⟩)
    omega
  · intro hsq
    refine ⟨by omega, ?_⟩
    intro d hd
    rw [mem_offs] at hd
    constructor
    · omega
    · omega

theorem dilateS_square {H W r a c s : ℕ} (hra : r ≤ a) (hrc : r ≤ c)
    (hH : a + s + r ≤ H) (hW : c + s + r ≤ W) (hs : 1 ≤ s) :
    dilateS H W r (squareMask a c s) = squareMask (a - r) (c - r) (s + 2 * r) := by
  funext p
  obtain ⟨x, y⟩ := p
  apply bool_ext
  simp only [dilateS, clip, inGridB, squareMask, List.any_eq_true, Bool.and_eq_true,
    decide_eq_true_eq]
  constructor
  · rintro ⟨hg, d, hd, hdg, hdsq⟩
    rw [mem_offs] at hd
    constructor
    · omega
    · omega
  · intro hsq
    refine ⟨by omega,
      (max (-(r : ℤ)) ((a : ℤ) - x), max (-(r : ℤ)) ((c : ℤ) - y)),
      mem_offs.mpr ⟨?_, ?_, ?_, ?_⟩, ?_, ?_⟩ <;> omega

theorem closing7_square {H W a c s : ℕ} (ha : 3 ≤ a) (hc : 3 ≤ c)
    (hH : a + s + 3 ≤ H) (hW : c + s + 3 ≤ W) (hs : 1 ≤ s) :
    closing7 H W (squareMask a c s) = squareMask a c s := by
  unfold closing7
  rw [dilateS_square ha hc hH hW hs]
  rw [erodeS_square (by omega) (by omega)]
  rw [show a - 3 + 3 = a from by omega, show c - 3 + 3 = c from by omega,
    show s + 2 * 3 - 2 * 3 = s from by omega]

theorem erodeIter_square {H W : ℕ} :
    ∀ (n a c s : ℕ), 2 * n ≤ s → a + s ≤ H → c + s ≤ W →
      erodeIter H W n (squareMask a c s) =
        squareMask (a + n) (c + n) (s - 2 * n)
  | 0, a, c, s, _, _, _ => by
      show squareMask a c s = _
      rw [show a + 0 = a from rfl, show c + 0 = c from rfl,
        show s - 2 * 0 = s from by omega]
  | n + 1, a, c, s, h2, hH, hW => by
      show erodeIter H W n (erodeS H W 1 (squareMask a c s)) = _
      rw [erodeS_square hH hW,
        erodeIter_square n (a + 1) (c + 1) (s - 2 * 1) (by omega) (by omega) (by omega),
        show a + 1 + n = a + (n + 1) from by omega,
        show c + 1 + n = c + (n + 1) from by omega,
        show s - 2 * 1 - 2 * n = s - 2 * (n + 1) from by omega]

theorem countTrue_pos {H W : ℕ} {m : ℤ × ℤ → Bool} {p : ℤ × ℤ}
    (hp : p ∈ gridCells H W) (hm : m p = true) : 0 < countTrue H W m := by
  unfold countTrue
  exact List.length_pos.mpr (List.ne_nil_of_mem (List.mem_filter.mpr ⟨hp, hm⟩))

/-! ### C7 — the contour band of a solid square decision region -/

/-- C7 (counterexample): a solid 9×9 square flush with the image border
(the whole 9×9 grid) is more than `2N = 8` pixels across, and its corner
pixel `(0,0)` is at erosion depth 1, so the claim puts it in the
ContourMask; but `binary_closing`/`binary_erosion` use `border_value=0`,
which erodes at the image border, and the code's contour at `(0,0)` is
`false`. -/
theorem C7_counterexample :
    squareMask 0 0 9 (0, 0) = true ∧
    ((0 : ℤ) < 0 + (contour_thickness : ℤ)) ∧
    contourStage 9 9 (squareMask 0 0 9) (0, 0) = false :=
  ⟨by decide, by decide, by decide⟩

/-- C7 (amended): for a solid square decision region of side `s > 2N`
(`N = contour_thickness = 4`) lying at distance at least 3 — the radius of
the 7×7 closing structure — from every image border, the generated
ContourMask restricted to the region is exactly the band of pixels within
depth `N` of the region boundary: the closing leaves the square unchanged
and each erosion peels one one-pixel layer, so a pixel is in the contour
iff it is in the square and within `N` of one of its four edges.  For a
square touching the image border this fails (see the counterexample),
because `border_value=0` makes the closing erode the square at the
border. -/
theorem C7_theorem (H W a c s : ℕ) (ha : 3 ≤ a) (hc : 3 ≤ c)
    (hH : a + s + 3 ≤ H) (hW : c + s + 3 ≤ W)
    (hs : 2 * contour_thickness < s) (p : ℤ × ℤ) :
    contourStage H W (squareMask a c s) p = true ↔
      (squareMask a c s p = true ∧
        (p.1 < (a : ℤ) + contour_thickness ∨
         (a : ℤ) + s - contour_thickness ≤ p.1 ∨
         p.2 < (c : ℤ) + contour_thickness ∨
         (c : ℤ) + s - contour_thickness ≤ p.2)) := by
  have hs1 : 1 ≤ s := by omega
  unfold contourStage
  rw [if_pos (countTrue_pos
    (mem_gridCells.mpr ⟨by omega, by omega, by omega, by omega⟩)
    (show squareMask a c s ((a : ℤ), (c : ℤ)) = true by
      simp only [squareMask, decide_eq_true_eq]
      refine ⟨by omega, by omega, by omega, by omega⟩))]
  rw [closing7_square ha hc hH hW hs1]
  rw [contourLoop_eq contour_thickness (squareMask a c s) (fun _ => false) p]
  rw [erodeIter_square contour_thickness a c s (by omega) (by omega) (by omega)]
  obtain ⟨x, y⟩ := p
  simp only [Bool.false_or, Bool.and_eq_true, Bool.not_eq_true', squareMask,
    decide_eq_true_eq, decide_eq_false_iff_not]
  omega

/-- C7 (witness): the amended statement applied to a 9×9 square at offset
`(3,3)` in a 16×16 image; its corner pixel `(3,3)` is at depth 1 and in
the contour. -/
theorem C7_witness :
    contourStage 16 16 (squareMask 3 3 9) (3, 3) = true :=
  (C7_theorem 16 16 3 3 9 (by omega) (by omega) (by omega) (by omega)
    (by decide) (3, 3)).mpr ⟨by decide, by decide⟩

/-- C4 (witness): the amended statement at the concrete one-cluster
instance. -/
theorem C4_witness :
    countB [[0]] (tripleStdSqOf [[1]]) (fun _ => 0) [[2]] 0 =
      (([[2]] : List (List ℚ)).filter (fun v => decide ((fun _ => 0 : List ℚ → ℕ) v = 0) &&
        !(decide ((tripleStdSqOf [[1]]).getD ((fun _ => 0 : List ℚ → ℕ) v) 0 <
            distSq v (([[0]] : List (List ℚ)).getD ((fun _ => 0 : List ℚ → ℕ) v) []))))).length ∧
    countA [0] 0 = (([0] : List ℕ).filter (fun z => decide (z = 0))).length :=
  C4_theorem [[0]] (tripleStdSqOf [[1]]) (fun _ => 0) [[2]] 0 [0]

/-- C5 (witness): the amended statement's zero-pixel clause at a concrete
empty region. -/
theorem C5_witness :
    region_decision (highlightMask 2 2 (fun _ => false)) [] = false :=
  (C5_theorem 2 2 (fun _ => true) (fun _ => false)).2 [] rfl

end PFT
